import Mathlib

/-!
Verification of the core logic of `novel_downloader.py` (pagination-aware
link discovery, chapter numbering, body normalization, assembly).

Strings are modelled as `List Char`.  Network retrieval and the rendering
session are external collaborators and appear as explicit function
parameters; file writes are modelled as (path, content) pairs.  Fallible
operations (`re.search(...).group()` on a failed search, tuple unpacking of
`str.rsplit`) are modelled with `Option`, `none` standing for the hard
runtime failure.
-/

namespace NovelDownloader

/-- Value of an ASCII digit character, as Python's `int` parsing sees it. -/
def charVal (c : Char) : Nat := c.toNat - 48

/-- Decimal digit to character, as Python's `str` rendering produces it. -/
def digitChar : Nat → Char
  | 0 => '0'
  | 1 => '1'
  | 2 => '2'
  | 3 => '3'
  | 4 => '4'
  | 5 => '5'
  | 6 => '6'
  | 7 => '7'
  | 8 => '8'
  | 9 => '9'
  | _ => '?'

/-- Python `int` applied to a (nonempty) string of decimal digits:
left fold accumulating `10 * acc + digit`. -/
def parseDigits (l : List Char) : Nat :=
  l.foldl (fun a c => 10 * a + charVal c) 0

/-- `Html.DOUBLE_LINE_BREAK = "<br><br>"` (source line 29). -/
def double_line_break : List Char := "<br><br>".data

/-- Model of `re.sub(r"\n+", "<br><br>", s)`: every maximal run of one or
more `'\n'` characters is replaced by `double_line_break`.  The Boolean
state records whether we are inside a newline run whose replacement has
already been emitted. -/
def convertLBAux : Bool → List Char → List Char
  | _, [] => []
  | inRun, c :: rest =>
    if c = '\n' then
      (if inRun then [] else double_line_break) ++ convertLBAux true rest
    else
      c :: convertLBAux false rest

/-- `convert_line_breaks_to_html` (source lines 214-216): replaces any
number of white lines with HTML double line breaks. -/
def convert_line_breaks_to_html (s : List Char) : List Char :=
  convertLBAux false s

/-- The literal part of `RegEx.LAST_PAGE_CONTAINER`, i.e. `data-page="`
(11 characters, source line 25). -/
def litDP : List Char := "data-page=\"".data

/-- The terminal label literal `Final` of `RegEx.LAST_PAGE_CONTAINER`. -/
def finalLit : List Char := "Final".data

/-- `.*Final` can complete from here: the literal `Final` occurs at some
position of the list with no `'\n'` strictly before it (`.` does not match
a newline since `re.search` is called without `re.DOTALL`). -/
def finalReachable : List Char → Bool
  | [] => false
  | c :: rest =>
    if finalLit.isPrefixOf (c :: rest) then true
    else if c = '\n' then false
    else finalReachable rest

/-- The pattern `data-page="\d+.*Final` matches starting at the head of
`u`: the literal `data-page="`, then at least one digit, then (whatever
split of remaining digits between `\d+` and `.*` backtracking picks) the
literal `Final` reachable without crossing a newline. -/
def matchDPAt (u : List Char) : Bool :=
  litDP.isPrefixOf u &&
    match u.drop 11 with
    | [] => false
    | c :: rest => c.isDigit && finalReachable rest

/-- `get_total_pages_in_chapter_pager` (source lines 102-118) applied to
the anchor-page markup: `re.search` the pattern `data-page="\d+.*Final`
(leftmost match), then take the first run of digits of the matched
fragment — which is the maximal digit run right after the `data-page="`
literal — and parse it.  `none` models the hard runtime failure when no
match exists (the code calls `.group()` on `None`); no fallback value is
ever produced. -/
def get_total_pages_in_chapter_pager : List Char → Option Nat
  | [] => none
  | c :: rest =>
    if matchDPAt (c :: rest) then
      some (parseDigits (((c :: rest).drop 11).takeWhile Char.isDigit))
    else
      get_total_pages_in_chapter_pager rest

/-- Little-endian decimal digits of `n`, computed with explicit fuel so the
definition is structural (and hence evaluable by the kernel).  With fuel
`≥ n` it agrees with `Nat.digits 10 n` (proved below). -/
def digitsFuel : Nat → Nat → List Nat
  | 0, _ => []
  | fuel + 1, n => if n = 0 then [] else n % 10 :: digitsFuel fuel (n / 10)

/-- Python `str(n)` for a natural number `n`: its decimal representation,
most significant digit first (`"0"` for `0`). -/
def natStr (n : Nat) : List Char :=
  if n = 0 then ['0'] else ((digitsFuel n n).map digitChar).reverse

/-- `_pad_number` (source lines 121-123): `str(number).zfill(pad_length)`.
`zfill` left-pads with `'0'` up to `pad_length` and returns the string
unchanged when it is already at least that long (no sign handling is
needed: the argument is a positive chapter index). -/
def pad_number (number : Nat) (pad_length : Nat) : List Char :=
  let s := natStr number
  if pad_length ≤ s.length then s
  else List.replicate (pad_length - s.length) '0' ++ s

/-- The sequence of zero-padded sequence strings computed by the loop of
`download_all_chapters` (source lines 198-211): for `T` chapter URLs,
`enumerate` yields positions `0..T-1` and each chapter gets
`_pad_number(chapter_number + 1, len(str(T)))`. -/
def assigned_numbers (T : Nat) : List (List Char) :=
  (List.range T).map (fun chapter_number => pad_number (chapter_number + 1) (natStr T).length)

/-- Split a string at its last `'/'`: `some (before, after)` where
`after` contains no `'/'`; `none` when there is no `'/'` at all.  This is
one step of Python's `rsplit(sep="/", ...)` from the right. -/
def splitLastSlash (s : List Char) : Option (List Char × List Char) :=
  if '/' ∈ s then
    some (((s.reverse.dropWhile (fun c => c ≠ '/')).drop 1).reverse,
          (s.reverse.takeWhile (fun c => c ≠ '/')).reverse)
  else none

/-- `_split_home_url` (source lines 152-163):
`home_url.rsplit(sep="/", maxsplit=2)` unpacked as
`base_domain, novel_title, _`.  The two rightmost `'/'` separators are
split off; `none` models the `ValueError` raised by the unpacking when the
URL holds fewer than two `'/'`. -/
def split_home_url (home_url : List Char) : Option (List Char × List Char) := do
  let (r, _) ← splitLastSlash home_url
  let (base_domain, novel_title) ← splitLastSlash r
  pure (base_domain, novel_title)

/-- Backtracking of `\d+` in the pattern `/{slug}-\d+.html` (with
`re.DOTALL`, so `.` matches any character): given the suffix `v` after the
`-` and a candidate digit count, try the greedy (largest) count first and
return the chosen count, i.e. the largest `k ≤ dmax` with `k ≥ 1` such
that `v` continues, after `k` digits and one arbitrary character, with the
literal `html`. -/
def tryDigits (v : List Char) : Nat → Option Nat
  | 0 => none
  | d + 1 =>
    if "html".data.isPrefixOf (v.drop (d + 2)) then some (d + 1)
    else tryDigits v d

/-- Length of the match of `/{slug}-\d+.html` at the head of `u`, when one
exists: literal `'/'`, the slug, `'-'`, the backtracking-chosen digit run,
one arbitrary character and the literal `html`. -/
def chapterMatchLen (slug u : List Char) : Option Nat :=
  if ('/' :: slug ++ ['-']).isPrefixOf u then
    let v := u.drop (slug.length + 2)
    match tryDigits v (v.takeWhile Char.isDigit).length with
    | some k => some (slug.length + 2 + k + 5)
    | none => none
  else none

/-- Scanning loop of `re.findall(rf"/{slug}-\d+.html", s, re.DOTALL)`:
leftmost non-overlapping matches, each reported as its matched text, the
scan resuming right after each match.  Structural on fuel; with fuel
`≥ s.length` the scan always terminates (each match consumes at least one
character). -/
def findallAux (slug : List Char) : Nat → List Char → List (List Char)
  | 0, _ => []
  | _, [] => []
  | fuel + 1, c :: rest =>
    match chapterMatchLen slug (c :: rest) with
    | some len => (c :: rest).take len :: findallAux slug fuel ((c :: rest).drop len)
    | none => findallAux slug fuel rest

/-- All matches of the chapter relative-path pattern in a listing page, in
document order. -/
def findall_chapter_paths (slug s : List Char) : List (List Char) :=
  findallAux slug s.length s

/-- Body of `parse_chapter_urls` (source lines 166-195) once the home URL
has been split: find every match of `/{novel_title}-\d+.html` in the page
content, in document order, and prefix each with the base domain. -/
def parse_chapter_urls_core (listing_page_content base_domain novel_title : List Char) :
    List (List Char) :=
  (findall_chapter_paths novel_title listing_page_content).map (fun rp => base_domain ++ rp)

/-- `parse_chapter_urls` (source lines 166-195): split the home URL, then
match and absolutize; `none` models the failure of the split. -/
def parse_chapter_urls (listing_page_content home_url : List Char) :
    Option (List (List Char)) := do
  let (base_domain, novel_title) ← split_home_url home_url
  pure (parse_chapter_urls_core listing_page_content base_domain novel_title)

/-- `N = 6`: the fixed size of the decoy block sliced off the front of
each page's match list (source line 146, `chapter_urls_in_page[6:]`). -/
def decoyCount : Nat := 6

/-- One iteration body of `extract_chapter_urls` for a given page content:
parse the chapter URLs of the page, then drop the leading decoy block. -/
def page_extract_step (listing_page_content base_domain novel_title : List Char) :
    List (List Char) :=
  (parse_chapter_urls_core listing_page_content base_domain novel_title).drop decoyCount

/-- The page URL fetched for page `i`: `f"{home_url}?page={page_number}"`
(source line 139). -/
def pageUrl (home_url : List Char) (page_number : Nat) : List Char :=
  home_url ++ "?page=".data ++ natStr page_number

/-- `extract_chapter_urls` (source lines 126-149), with the transport
collaborator `fetch` (mapping a page URL to the retrieved page text) made
explicit: for pages `1..chapter_pager_last` in increasing order, fetch the
page, parse its chapter URLs, drop the decoy block, and extend the
accumulated list.  `none` models the run aborting (the home-URL split
failing inside `parse_chapter_urls`); with zero pages the loop body never
runs and the empty list is returned. -/
def extract_chapter_urls (fetch : List Char → List Char) (home_url : List Char) :
    Nat → Option (List (List Char))
  | 0 => some []
  | p + 1 => do
    let acc ← extract_chapter_urls fetch home_url p
    let urls ← parse_chapter_urls (fetch (pageUrl home_url (p + 1))) home_url
    pure (acc ++ urls.drop decoyCount)

/-- The chapter relative-path shape exactly as the spec states it:
`/{slug}-{digits}.html` with at least one digit and a literal dot before
the known extension.  (Stated from the spec's words, for comparison with
what the source's pattern actually matches.) -/
def specRelPath (slug path : List Char) : Bool :=
  ('/' :: slug ++ ['-']).isPrefixOf path &&
    (let v := path.drop (slug.length + 2)
     let ds := v.takeWhile Char.isDigit
     decide (ds ≠ []) && decide (v.drop ds.length = '.' :: "html".data))

/-- Modelled from the spec: the aggregate template
`templates/novel_template.html` read by `render_novel_template` (source
lines 234-238) is not among the sources.  Per the spec, the templating
collaborator, given the template text and the ordered chapter documents,
deterministically produces one text document that includes every
chapter's rendered content in sequence order. -/
def render_novel_template (template_text : List Char) (chapter_htmls : List (List Char)) :
    List Char :=
  template_text ++ chapter_htmls.flatten

/-- `save_novel` (source lines 241-244), with the file write modelled as
the (path, content) pair: the aggregate is persisted at
`f"{novel_dir}/{novel_title}.html"`. -/
def save_novel (novel_html novel_title novel_dir : List Char) : List Char × List Char :=
  (novel_dir ++ "/".data ++ novel_title ++ ".html".data, novel_html)

/-- The collection-assembly operation: render the aggregate from the
ordered chapter documents and persist it (composition of
`render_novel_template` and `save_novel` as in `main`, source
lines 269-270). -/
def assemble_collection (template_text novel_title novel_dir : List Char)
    (chapter_htmls : List (List Char)) : List Char × List Char :=
  save_novel (render_novel_template template_text chapter_htmls) novel_title novel_dir

/-! ### Helper lemmas -/

lemma isPrefixOf_self_append (l r : List Char) : l.isPrefixOf (l ++ r) = true := by
  induction l with
  | nil => simp [List.isPrefixOf]
  | cons a l ih => simp [List.isPrefixOf, ih]

lemma length_le_of_isPrefixOf :
    ∀ (l u : List Char), l.isPrefixOf u = true → l.length ≤ u.length := by
  intro l
  induction l with
  | nil => intro u _; simp
  | cons a l ih =>
    intro u h
    cases u with
    | nil => simp [List.isPrefixOf] at h
    | cons b bs =>
      simp only [List.isPrefixOf, Bool.and_eq_true] at h
      simpa using Nat.succ_le_succ (ih bs h.2)

lemma convertLBAux_no_newline (s : List Char) : ∀ b : Bool, '\n' ∉ convertLBAux b s := by
  induction s with
  | nil => intro b; simp [convertLBAux]
  | cons c rest ih =>
    intro b
    by_cases hc : c = '\n'
    · subst hc
      cases b <;>
        simpa [convertLBAux, double_line_break, List.mem_append] using
          fun h => (ih true) h
    · simp only [convertLBAux, if_neg hc, List.mem_cons]
      rintro (h | h)
      · exact hc h.symm
      · exact ih false h

lemma convertLBAux_id_of_no_newline (s : List Char) (h : '\n' ∉ s) :
    convertLBAux false s = s := by
  induction s with
  | nil => rfl
  | cons c rest ih =>
    have hc : c ≠ '\n' := fun he => h (he ▸ List.mem_cons_self c rest)
    have hr : '\n' ∉ rest := fun hm => h (List.mem_cons_of_mem c hm)
    simp [convertLBAux, if_neg hc, ih hr]

lemma matchDPAt_false_of_short (u : List Char) (h : u.length < 11) :
    matchDPAt u = false := by
  have hp : litDP.isPrefixOf u = false := by
    by_contra hne
    have htrue : litDP.isPrefixOf u = true := by
      cases hb : litDP.isPrefixOf u
      · exact absurd hb hne
      · rfl
    have hle := length_le_of_isPrefixOf _ _ htrue
    have : (11 : Nat) ≤ u.length := by simpa [litDP] using hle
    omega
  simp [matchDPAt, hp]

/-! ### C10 / C6 : body normalization -/

/-- C10: for every input string, the output of the body-normalization
transform `convert_line_breaks_to_html` contains no newline character. -/
theorem convert_line_breaks_no_newline (s : List Char) :
    '\n' ∉ convert_line_breaks_to_html s :=
  convertLBAux_no_newline s false

theorem convert_line_breaks_no_newline_witness :
    '\n' ∉ convert_line_breaks_to_html "a\n\nb\nc".data :=
  convert_line_breaks_no_newline "a\n\nb\nc".data

/-- C6: the body-normalization transform is idempotent: applying
`convert_line_breaks_to_html` twice yields the same result as applying it
once. -/
theorem convert_line_breaks_idempotent (s : List Char) :
    convert_line_breaks_to_html (convert_line_breaks_to_html s) =
      convert_line_breaks_to_html s :=
  convertLBAux_id_of_no_newline _ (convertLBAux_no_newline s false)

/-! ### C9 : aggregation determinism -/

/-- C9: aggregation is deterministic: two calls of `assemble_collection`
on the same ordered chapter list (with the identical templating behavior,
i.e. the same template text) produce byte-identical aggregate output. -/
theorem assemble_collection_deterministic (template_text novel_title novel_dir : List Char)
    (chapter_htmls chapter_htmls' : List (List Char)) (h : chapter_htmls = chapter_htmls') :
    assemble_collection template_text novel_title novel_dir chapter_htmls =
      assemble_collection template_text novel_title novel_dir chapter_htmls' := by
  rw [h]

theorem assemble_collection_deterministic_witness :
    assemble_collection "<T>".data "t".data "output/t".data ["<c1>".data, "<c2>".data] =
      assemble_collection "<T>".data "t".data "output/t".data ["<c1>".data, "<c2>".data] :=
  assemble_collection_deterministic "<T>".data "t".data "output/t".data
    ["<c1>".data, "<c2>".data] ["<c1>".data, "<c2>".data] rfl

/-! ### C7 : pager hard failure -/

/-- C7: on anchor markup where the terminal-page marker pattern matches at
no position, `get_total_pages_in_chapter_pager` fails hard (`none`, the
model of the unrescued exception): it never returns a fallback integer
such as `1`. -/
theorem pages_total_fails_hard (s : List Char)
    (h : ∀ i, matchDPAt (s.drop i) = false) :
    get_total_pages_in_chapter_pager s = none ∧
      ∀ k, get_total_pages_in_chapter_pager s ≠ some k := by
  have main : get_total_pages_in_chapter_pager s = none := by
    induction s with
    | nil => rfl
    | cons c rest ih =>
      have h0 : matchDPAt (c :: rest) = false := by simpa using h 0
      have hrest : ∀ i, matchDPAt (rest.drop i) = false := by
        intro i
        simpa [List.drop_succ_cons] using h (i + 1)
      simp [get_total_pages_in_chapter_pager, h0, ih hrest]
  exact ⟨main, fun k hk => by simp [main] at hk⟩

theorem pages_total_fails_hard_witness :
    (∀ i, matchDPAt ("<html>no pager here</html>".data.drop i) = false) ∧
      get_total_pages_in_chapter_pager "<html>no pager here</html>".data = none := by
  have hm : ∀ i, matchDPAt ("<html>no pager here</html>".data.drop i) = false := by
    intro i
    by_cases hi : i < 16
    · interval_cases i <;> decide
    · apply matchDPAt_false_of_short
      have : ("<html>no pager here</html>".data).length = 26 := by decide
      simp [List.length_drop, this]
      omega
  exact ⟨hm, (pages_total_fails_hard _ hm).1⟩

/-! ### C8 : home-URL splitting -/

lemma takeWhile_append_eq {α : Type} (p : α → Bool) (as r : List α)
    (h : ∀ a ∈ as, p a = true) (hr : ∀ c, r.head? = some c → p c = false) :
    (as ++ r).takeWhile p = as := by
  induction as with
  | nil =>
    cases r with
    | nil => rfl
    | cons b bs => simp [List.takeWhile, hr b rfl]
  | cons a as ih =>
    have ha : p a = true := h a (List.mem_cons_self a as)
    simp only [List.cons_append, List.takeWhile, ha]
    exact congrArg (a :: ·) (ih fun x hx => h x (List.mem_cons_of_mem a hx))

lemma dropWhile_append_eq {α : Type} (p : α → Bool) (as r : List α)
    (h : ∀ a ∈ as, p a = true) (hr : ∀ c, r.head? = some c → p c = false) :
    (as ++ r).dropWhile p = r := by
  induction as with
  | nil =>
    cases r with
    | nil => rfl
    | cons b bs => simp [List.dropWhile, hr b rfl]
  | cons a as ih =>
    have ha : p a = true := h a (List.mem_cons_self a as)
    simp only [List.cons_append, List.dropWhile, ha]
    exact ih fun x hx => h x (List.mem_cons_of_mem a hx)

lemma splitLastSlash_append (xs ys : List Char) (h : '/' ∉ ys) :
    splitLastSlash (xs ++ '/' :: ys) = some (xs, ys) := by
  have hmem : '/' ∈ xs ++ '/' :: ys := by simp
  have hrev : (xs ++ '/' :: ys).reverse = ys.reverse ++ '/' :: xs.reverse := by
    simp
  have hall : ∀ a ∈ ys.reverse, (decide (a ≠ '/')) = true := by
    intro a ha
    have hmem' : a ∈ ys := List.mem_reverse.mp ha
    simp only [decide_eq_true_eq]
    exact fun he => h (he ▸ hmem')
  have hhead : ∀ c, ('/' :: xs.reverse).head? = some c → (decide (c ≠ '/')) = false := by
    intro c hc
    simp only [List.head?_cons, Option.some.injEq] at hc
    simp [← hc]
  simp only [splitLastSlash, if_pos hmem, hrev]
  rw [takeWhile_append_eq _ _ _ hall hhead, dropWhile_append_eq _ _ _ hall hhead]
  simp

/-- C8: for every home address of the form `<base>/<slug>/` — the base
address, one path segment containing no `'/'`, and a trailing slash — the
home-URL splitting operation returns `(base, slug)`. -/
theorem split_home_url_correct (base slug : List Char) (h : '/' ∉ slug) :
    split_home_url (base ++ '/' :: (slug ++ ['/'])) = some (base, slug) := by
  have hshape : base ++ '/' :: (slug ++ ['/']) = (base ++ '/' :: slug) ++ '/' :: [] := by
    simp
  rw [hshape, split_home_url, splitLastSlash_append _ [] (by simp)]
  simp only [Option.bind_eq_bind, Option.some_bind]
  rw [splitLastSlash_append _ _ h]
  rfl

theorem split_home_url_correct_witness :
    ('/' ∉ "mi-esposo-es-un-billonario".data) ∧
      split_home_url
          ("https://www.novelabook.link".data ++ '/' ::
            ("mi-esposo-es-un-billonario".data ++ ['/'])) =
        some ("https://www.novelabook.link".data, "mi-esposo-es-un-billonario".data) :=
  ⟨by decide, split_home_url_correct _ _ (by decide)⟩

/-! ### C4 : decoy drop on a listing page -/

/-- C4: on a listing page whose markup yields exactly
`decoyCount + M` pattern matches (the fixed decoy block followed by `M`
real chapter entries), the per-page extraction step returns exactly the
`M` real absolute locators, in document order; and on a page yielding
fewer than `decoyCount` matches in total, it returns the empty list, not
an error. -/
theorem page_extract_decoy_drop (content base slug : List Char) (M : Nat) :
    ((findall_chapter_paths slug content).length = decoyCount + M →
      page_extract_step content base slug =
        ((findall_chapter_paths slug content).drop decoyCount).map (fun rp => base ++ rp) ∧
      (page_extract_step content base slug).length = M) ∧
    ((findall_chapter_paths slug content).length < decoyCount →
      page_extract_step content base slug = []) := by
  constructor
  · intro h
    constructor
    · simp [page_extract_step, parse_chapter_urls_core, List.map_drop]
    · simp [page_extract_step, parse_chapter_urls_core, List.length_drop, h]
  · intro h
    apply List.drop_eq_nil_of_le
    simp [parse_chapter_urls_core]
    omega

theorem page_extract_decoy_drop_witness :
    (findall_chapter_paths "demo".data
        "/demo-10.html/demo-11.html/demo-12.html/demo-13.html/demo-14.html/demo-15.html/demo-1.html/demo-2.html".data).length =
      decoyCount + 2 ∧
    page_extract_step
        "/demo-10.html/demo-11.html/demo-12.html/demo-13.html/demo-14.html/demo-15.html/demo-1.html/demo-2.html".data
        "https://b".data "demo".data =
      ["https://b/demo-1.html".data, "https://b/demo-2.html".data] := by
  constructor
  · decide
  · have h :=
      ((page_extract_decoy_drop
          "/demo-10.html/demo-11.html/demo-12.html/demo-13.html/demo-14.html/demo-15.html/demo-1.html/demo-2.html".data
          "https://b".data "demo".data 2).1 (by decide)).1
    rw [h]
    decide

/-! ### C5 : shape of returned locators -/

/-- C5 fails on the code: the pattern `rf"/{novel_title}-{digits}.html"`
is compiled with an unescaped `.`, which matches any character (and, under
`re.DOTALL`, even a newline), not only a literal dot.  On the listing
content `/demo-1Xhtml` the extractor returns the locator
`https://b/demo-1Xhtml`, which does not have the documented
`/{slug}-{digits}.html` literal-dot shape. -/
theorem parse_chapter_urls_dot_any_char :
    parse_chapter_urls_core "/demo-1Xhtml".data "https://b".data "demo".data =
      ["https://b".data ++ "/demo-1Xhtml".data] ∧
    specRelPath "demo".data "/demo-1Xhtml".data = false := by
  constructor
  · decide
  · decide

/-! ### C1 : page-ascending concatenation of the discovery loop -/

/-- C1: over `P ≥ 1` listing pages, the discovery loop returns exactly the
concatenation of the per-page extraction results in ascending page order
(page `1` first), with within-page document order preserved and no
re-sorting; its length is the sum of the per-page counts. -/
theorem extract_chapter_urls_concat (fetch : List Char → List Char)
    (home base slug : List Char) (P : Nat)
    (hsplit : split_home_url home = some (base, slug)) (hP : 1 ≤ P) :
    extract_chapter_urls fetch home P =
      some (((List.range P).map (fun i =>
        page_extract_step (fetch (pageUrl home (i + 1))) base slug)).flatten) ∧
    (((List.range P).map (fun i =>
        page_extract_step (fetch (pageUrl home (i + 1))) base slug)).flatten).length =
      ((List.range P).map (fun i =>
        (page_extract_step (fetch (pageUrl home (i + 1))) base slug).length)).sum := by
  constructor
  · clear hP
    induction P with
    | zero => simp [extract_chapter_urls]
    | succ p ih =>
      rw [extract_chapter_urls, ih]
      simp only [Option.bind_eq_bind, Option.some_bind, parse_chapter_urls, hsplit]
      simp [List.range_succ, List.flatten_append, page_extract_step]
  · rw [List.length_flatten, List.map_map]
    rfl

theorem extract_chapter_urls_concat_witness :
    split_home_url "https://b/demo/".data = some ("https://b".data, "demo".data) ∧
    extract_chapter_urls
        (fun _ =>
          "/demo-10.html/demo-11.html/demo-12.html/demo-13.html/demo-14.html/demo-15.html/demo-1.html/demo-2.html".data)
        "https://b/demo/".data 2 =
      some ["https://b/demo-1.html".data, "https://b/demo-2.html".data,
            "https://b/demo-1.html".data, "https://b/demo-2.html".data] := by
  constructor
  · decide
  · have h :=
      (extract_chapter_urls_concat
        (fun _ =>
          "/demo-10.html/demo-11.html/demo-12.html/demo-13.html/demo-14.html/demo-15.html/demo-1.html/demo-2.html".data)
        "https://b/demo/".data "https://b".data "demo".data 2 (by decide) (by decide)).1
    rw [h]
    decide

/-! ### C3 : pager value extraction -/

lemma isDigit_ne_newline {c : Char} (h : c.isDigit = true) : c ≠ '\n' := by
  intro he
  subst he
  exact absurd h (by decide)

lemma finalReachable_append (xs rest : List Char) (h : ∀ c ∈ xs, c ≠ '\n') :
    finalReachable (xs ++ (finalLit ++ rest)) = true := by
  induction xs with
  | nil =>
    have hpre : finalLit.isPrefixOf (finalLit ++ rest) = true :=
      isPrefixOf_self_append _ _
    cases hfr : finalLit ++ rest with
    | nil => simp [finalLit] at hfr
    | cons b bs => rw [← hfr]; rw [show finalLit ++ rest = b :: bs from hfr] at hpre ⊢
                   simp [finalReachable, hpre]
  | cons x xs ih =>
    have hx : x ≠ '\n' := h x (List.mem_cons_self x xs)
    rw [List.cons_append]
    cases hb : finalLit.isPrefixOf (x :: (xs ++ (finalLit ++ rest))) with
    | true => simp [finalReachable, hb]
    | false =>
      simp only [finalReachable, hb, Bool.false_eq_true, if_false, if_neg hx]
      exact ih fun c hc => h c (List.mem_cons_of_mem x hc)

lemma getTotalPages_append_of_no_match (pre t : List Char)
    (hpre : ∀ i, i < pre.length → matchDPAt ((pre ++ t).drop i) = false) :
    get_total_pages_in_chapter_pager (pre ++ t) = get_total_pages_in_chapter_pager t := by
  induction pre with
  | nil => rfl
  | cons c pre' ih =>
    have h0 : matchDPAt (c :: (pre' ++ t)) = false := by
      simpa using hpre 0 (by simp)
    have hrest : ∀ i, i < pre'.length → matchDPAt ((pre' ++ t).drop i) = false := by
      intro i hi
      simpa [List.drop_succ_cons] using hpre (i + 1) (by simpa using Nat.succ_lt_succ hi)
    rw [List.cons_append]
    simp only [get_total_pages_in_chapter_pager, h0, Bool.false_eq_true, if_false]
    exact ih hrest

lemma getTotalPages_pos (u : List Char) (h : matchDPAt u = true) :
    get_total_pages_in_chapter_pager u =
      some (parseDigits ((u.drop 11).takeWhile Char.isDigit)) := by
  cases u with
  | nil => exact absurd h (by decide)
  | cons c rest => simp [get_total_pages_in_chapter_pager, h]

/-- The counterexample markup: a pager line listing a page-1 link before
the terminal link. -/
def cexMarkup : List Char := "<a data-page=\"1\">1</a><a data-page=\"3\">Final</a>".data

/-- C3 as stated is false: `cexMarkup` contains a terminal-page marker
(`data-page="3">Final`, value `3`), but `get_total_pages_in_chapter_pager`
returns `1`, the value of the leftmost `data-page="` occurrence that is
followed by `Final` on the same line. -/
theorem pages_total_counterexample :
    cexMarkup =
      "<a data-page=\"1\">1</a><a ".data ++
        (litDP ++ ['3'] ++ "\">".data ++ finalLit) ++ "</a>".data ∧
    parseDigits ['3'] = 3 ∧
    get_total_pages_in_chapter_pager cexMarkup = some 1 ∧
    get_total_pages_in_chapter_pager cexMarkup ≠ some 3 := by
  refine ⟨by decide, by decide, by decide, by decide⟩

/-- C3 amended: if additionally the terminal marker sits at the leftmost
position where the marker pattern matches (no earlier `data-page="`
occurrence is followed by the terminal label without an intervening line
break — in particular when the marker is the markup's only `data-page`
attribute), then `get_total_pages_in_chapter_pager` returns exactly `P`,
the value of the digit run carried by the marker. -/
theorem pages_total_amended (pre ds mid post : List Char) (P : Nat) (hP : 1 ≤ P)
    (hds : ds ≠ []) (hdig : ∀ c ∈ ds, c.isDigit = true)
    (hval : parseDigits ds = P)
    (hmid : ∀ c ∈ mid, c ≠ '\n')
    (hhead : ∀ c, mid.head? = some c → c.isDigit = false)
    (hpre : ∀ i, i < pre.length →
      matchDPAt ((pre ++ (litDP ++ (ds ++ (mid ++ (finalLit ++ post))))).drop i) = false) :
    get_total_pages_in_chapter_pager
        (pre ++ (litDP ++ (ds ++ (mid ++ (finalLit ++ post))))) = some P := by
  clear hP
  rw [getTotalPages_append_of_no_match _ _ hpre]
  obtain ⟨d, ds', rfl⟩ : ∃ d ds', ds = d :: ds' := by
    cases ds with
    | nil => exact absurd rfl hds
    | cons d ds' => exact ⟨d, ds', rfl⟩
  have hdrop :
      (litDP ++ (d :: ds' ++ (mid ++ (finalLit ++ post)))).drop 11 =
        d :: ds' ++ (mid ++ (finalLit ++ post)) := by
    have h11 : litDP.length = 11 := by decide
    rw [← h11, List.drop_left]
  have hreach : finalReachable (ds' ++ (mid ++ (finalLit ++ post))) = true := by
    have hassoc : ds' ++ (mid ++ (finalLit ++ post)) = (ds' ++ mid) ++ (finalLit ++ post) := by
      simp
    rw [hassoc]
    refine finalReachable_append _ _ fun c hc => ?_
    rcases List.mem_append.mp hc with hc' | hc'
    · exact isDigit_ne_newline (hdig c (List.mem_cons_of_mem d hc'))
    · exact hmid c hc'
  have hmatch : matchDPAt (litDP ++ (d :: ds' ++ (mid ++ (finalLit ++ post)))) = true := by
    have hpre' : litDP.isPrefixOf (litDP ++ (d :: ds' ++ (mid ++ (finalLit ++ post)))) = true :=
      isPrefixOf_self_append _ _
    simp only [matchDPAt, hpre', Bool.true_and, hdrop]
    show (d.isDigit && finalReachable (ds' ++ (mid ++ (finalLit ++ post)))) = true
    rw [hdig d (List.mem_cons_self d ds'), hreach]
    rfl
  rw [getTotalPages_pos _ hmatch, hdrop]
  have htake :
      ((d :: ds') ++ (mid ++ (finalLit ++ post))).takeWhile Char.isDigit = d :: ds' := by
    refine takeWhile_append_eq _ _ _ hdig fun c hc => ?_
    cases mid with
    | nil =>
      have : (finalLit ++ post).head? = some 'F' := by
        simp [finalLit]
      simp only [List.nil_append] at hc
      rw [this] at hc
      cases hc
      decide
    | cons m ms =>
      simp only [List.cons_append, List.head?_cons, Option.some.injEq] at hc
      exact hc ▸ hhead m rfl
  rw [show d :: ds' ++ (mid ++ (finalLit ++ post)) = (d :: ds') ++ (mid ++ (finalLit ++ post))
      from rfl, htake, hval]

theorem pages_total_amended_witness :
    get_total_pages_in_chapter_pager
        ("<p>".data ++ (litDP ++ (['3'] ++ ("\">".data ++ (finalLit ++ " </a>".data))))) =
      some 3 :=
  pages_total_amended "<p>".data ['3'] "\">".data " </a>".data 3 (by decide) (by decide)
    (by decide) (by decide) (by decide) (by decide) (by decide)

/-! ### C2 : chapter numbering -/

lemma digitsFuel_eq : ∀ fuel n : Nat, n ≤ fuel → digitsFuel fuel n = Nat.digits 10 n := by
  intro fuel
  induction fuel with
  | zero =>
    intro n hn
    have : n = 0 := Nat.le_zero.mp hn
    subst this
    simp [digitsFuel]
  | succ fuel ih =>
    intro n hn
    by_cases h0 : n = 0
    · subst h0; simp [digitsFuel]
    · have hpos : 0 < n := Nat.pos_of_ne_zero h0
      have hdiv : n / 10 ≤ fuel := by
        have := Nat.div_lt_self hpos (by norm_num : 1 < 10)
        omega
      rw [digitsFuel, if_neg h0, ih _ hdiv, Nat.digits_def' (by norm_num : 1 < 10) hpos]

lemma natStr_eq (n : Nat) (h : n ≠ 0) :
    natStr n = ((Nat.digits 10 n).map digitChar).reverse := by
  simp [natStr, h, digitsFuel_eq n n le_rfl]

lemma charVal_digitChar : ∀ d : Nat, d < 10 → charVal (digitChar d) = d := by decide

lemma parseDigits_append_singleton (xs : List Char) (c : Char) :
    parseDigits (xs ++ [c]) = 10 * parseDigits xs + charVal c := by
  simp [parseDigits, List.foldl_append]

lemma parseDigits_rev_map (ds : List Nat) (h : ∀ d ∈ ds, d < 10) :
    parseDigits ((ds.map digitChar).reverse) = Nat.ofDigits 10 ds := by
  induction ds with
  | nil => simp [parseDigits, Nat.ofDigits_nil]
  | cons d ds' ih =>
    have hd : d < 10 := h d (List.mem_cons_self d ds')
    calc parseDigits (((d :: ds').map digitChar).reverse)
        = parseDigits ((ds'.map digitChar).reverse ++ [digitChar d]) := by simp
      _ = 10 * parseDigits ((ds'.map digitChar).reverse) + charVal (digitChar d) :=
          parseDigits_append_singleton _ _
      _ = 10 * Nat.ofDigits 10 ds' + d := by
          rw [ih fun x hx => h x (List.mem_cons_of_mem d hx), charVal_digitChar d hd]
      _ = Nat.ofDigits 10 (d :: ds') := by rw [Nat.ofDigits_cons]; ring

lemma parseDigits_natStr (n : Nat) : parseDigits (natStr n) = n := by
  by_cases h0 : n = 0
  · subst h0; decide
  · rw [natStr_eq n h0,
      parseDigits_rev_map _ fun d hd => Nat.digits_lt_base (by norm_num) hd,
      Nat.ofDigits_digits]

lemma parseDigits_replicate_zero (k : Nat) (l : List Char) :
    parseDigits (List.replicate k '0' ++ l) = parseDigits l := by
  induction k with
  | zero => simp
  | succ k ih =>
    have : List.replicate (k + 1) '0' ++ l = '0' :: (List.replicate k '0' ++ l) := by
      simp [List.replicate_succ]
    rw [this]
    simpa [parseDigits, charVal] using ih

lemma parseDigits_pad_number (n w : Nat) : parseDigits (pad_number n w) = n := by
  rw [pad_number]
  by_cases h : w ≤ (natStr n).length
  · simp [h, parseDigits_natStr]
  · simp only [if_neg h]
    rw [parseDigits_replicate_zero, parseDigits_natStr]

lemma natStr_length_pos (n : Nat) : 0 < (natStr n).length := by
  by_cases h0 : n = 0
  · subst h0; decide
  · rw [natStr_eq n h0]
    simp only [List.length_reverse, List.length_map]
    exact List.length_pos.mpr (Nat.digits_ne_nil_iff_ne_zero.mpr h0)

lemma natStr_length_mono {m n : Nat} (h : m ≤ n) :
    (natStr m).length ≤ (natStr n).length := by
  by_cases hm : m = 0
  · subst hm
    have : (natStr 0).length = 1 := by decide
    rw [this]
    exact natStr_length_pos n
  · have hn : n ≠ 0 := by
      intro he
      exact hm (Nat.le_zero.mp (he ▸ h))
    rw [natStr_eq m hm, natStr_eq n hn]
    simp only [List.length_reverse, List.length_map]
    rw [Nat.digits_len 10 m (by norm_num) hm, Nat.digits_len 10 n (by norm_num) hn]
    exact Nat.succ_le_succ (Nat.log_mono_right h)

lemma pad_number_length (n w : Nat) (h : (natStr n).length ≤ w) :
    (pad_number n w).length = w := by
  rw [pad_number]
  by_cases hw : w ≤ (natStr n).length
  · simp only [if_pos hw]
    omega
  · simp only [if_neg hw, List.length_append, List.length_replicate]
    omega

/-- C2: the zero-padded sequence strings assigned by the download loop to
a run of `T` chapters are, in locator order, exactly the integers `1..T`
rendered with uniform width `len(str(T))`, each appearing exactly once. -/
theorem chapter_numbering_bijection (T : Nat) :
    (assigned_numbers T).length = T ∧
    (∀ i, i < T → (assigned_numbers T)[i]? =
      some (pad_number (i + 1) (natStr T).length)) ∧
    (∀ s ∈ assigned_numbers T, s.length = (natStr T).length) ∧
    (assigned_numbers T).map parseDigits = (List.range T).map (fun i => i + 1) ∧
    (assigned_numbers T).Nodup := by
  refine ⟨by simp [assigned_numbers], ?_, ?_, ?_, ?_⟩
  · intro i hi
    simp [assigned_numbers, List.getElem?_map, List.getElem?_range hi]
  · intro s hs
    simp only [assigned_numbers, List.mem_map, List.mem_range] at hs
    obtain ⟨i, hi, rfl⟩ := hs
    exact pad_number_length _ _ (natStr_length_mono (by omega))
  · simp only [assigned_numbers, List.map_map]
    congr 1
    funext i
    exact parseDigits_pad_number (i + 1) (natStr T).length
  · refine List.Nodup.map ?_ (List.nodup_range T)
    intro a b hab
    have := congrArg parseDigits hab
    rwa [parseDigits_pad_number, parseDigits_pad_number, Nat.add_right_cancel_iff] at this

theorem chapter_numbering_bijection_witness :
    (assigned_numbers 120)[6]? = some "007".data := by
  have h := (chapter_numbering_bijection 120).2.1 6 (by decide)
  rw [h]
  decide

end NovelDownloader
